import Mathlib

/-!
Shallow embedding of the `dedup` file-deduplication tool (Go sources:
`policy.go`, `scan.go`, `path.go`, `filter.go`, `main.go`).

Modelling conventions:
* Go strings are byte strings; we model them as `List Char` (ASCII content).
* The POSIX branch of the code is embedded (`os.PathSeparator = '/'`,
  so `SamePath` is plain equality and `GetPathAsKey` is the identity).
* `os.FileInfo` is modelled by `FileInfo`, whose `id` field stands for the
  underlying filesystem object identity used by `os.SameFile`; a nil
  `FileInfo` interface value is `Option.none` (Go's `os.SameFile` returns
  false when either argument is not a concrete stat value).
* Go `int64` values are modelled as `Int`; `strconv.ParseInt(s, 10, 64)`
  is embedded with its 64-bit range check.
* Go maps are modelled as association lists (`alistLookup`/`alistInsert`);
  the claims proved here do not depend on map iteration order.
-/

namespace Dedup

/-- Go string, modelled as a list of characters. -/
abbrev GoStr := List Char

/-- Association-list lookup, modelling Go map read `m[k]`. -/
def alistLookup {α β : Type} [DecidableEq α] : List (α × β) → α → Option β
  | [], _ => none
  | (k, v) :: rest, key => if key = k then some v else alistLookup rest key

/-- Association-list insert/replace, modelling Go map write `m[k] = v`. -/
def alistInsert {α β : Type} [DecidableEq α] : List (α × β) → α → β → List (α × β)
  | [], key, val => [(key, val)]
  | (k, v) :: rest, key, val =>
    if key = k then (k, val) :: rest else (k, v) :: alistInsert rest key val

/-! ### Decimal formatting and parsing (semantics of `fmt.Sprintf "%v"` on
integers and of `strconv.ParseInt(s, 10, 64)`). -/

/-- The character for a decimal digit `d < 10`. -/
def digitChar (d : Nat) : Char := Char.ofNat (48 + d)

/-- Fuel-based decimal formatter (most significant digit first). -/
def natDecimalAux (fuel : Nat) (n : Nat) : GoStr :=
  match fuel with
  | 0 => []
  | fuel + 1 => if n = 0 then [] else natDecimalAux fuel (n / 10) ++ [digitChar (n % 10)]

/-- Decimal representation of a natural number, as printed by Go's `%v`. -/
def natDecimal (n : Nat) : GoStr :=
  if n = 0 then ['0'] else natDecimalAux n n

/-- Decimal representation of a Go `int64` value, as printed by `%v`. -/
def intDecimal (i : Int) : GoStr :=
  if i < 0 then '-' :: natDecimal (-i).toNat else natDecimal i.toNat

/-- Numeric value of a digit string (fold used by `ParseInt`'s digit loop). -/
def digitsVal (s : GoStr) : Nat :=
  s.foldl (fun a c => a * 10 + (c.toNat - 48)) 0

/-- `ParseInt` digit loop: every character must be a decimal digit. -/
def parseDigitsAux : GoStr → Nat → Option Nat
  | [], acc => some acc
  | c :: rest, acc =>
    if c.isDigit then parseDigitsAux rest (acc * 10 + (c.toNat - 48)) else none

/-- Parse an unsigned decimal digit string (at least one digit). -/
def parseDec (s : GoStr) : Option Nat :=
  if s = [] then none else parseDigitsAux s 0

/-- `strconv.ParseInt(s, 10, 64)`: optional sign, decimal digits, 64-bit
signed range check; `none` models a non-nil error. -/
def goParseInt (s : GoStr) : Option Int :=
  match s with
  | [] => none
  | c :: rest =>
    if c = '+' then
      (parseDec rest).bind (fun n => if n < 2 ^ 63 then some (n : Int) else none)
    else if c = '-' then
      (parseDec rest).bind (fun n => if n ≤ 2 ^ 63 then some (-(n : Int)) else none)
    else
      (parseDec s).bind (fun n => if n < 2 ^ 63 then some (n : Int) else none)

/-! ### Hex encoding/decoding (semantics of `encoding/hex`). -/

/-- Lowercase hex character for a nibble `d < 16` (junk above 15). -/
def hexDigit (d : Nat) : Char :=
  if d < 10 then Char.ofNat (48 + d) else Char.ofNat (87 + d)

/-- Value of a hex character, upper or lower case (`hex.DecodeString`). -/
def hexVal (c : Char) : Option Nat :=
  if '0' ≤ c ∧ c ≤ '9' then some (c.toNat - 48)
  else if 'a' ≤ c ∧ c ≤ 'f' then some (c.toNat - 87)
  else if 'A' ≤ c ∧ c ≤ 'F' then some (c.toNat - 55)
  else none

/-- `hex.EncodeToString` over a byte list. -/
def bytesToHex (bs : List Nat) : GoStr :=
  bs.flatMap (fun b => [hexDigit (b / 16), hexDigit (b % 16)])

/-- `hex.DecodeString` over a character list: pairs of hex digits. -/
def hexToBytes : GoStr → Option (List Nat)
  | [] => some []
  | [_] => none
  | c1 :: c2 :: rest =>
    match hexVal c1, hexVal c2, hexToBytes rest with
    | some h, some l, some bs => some ((h * 16 + l) :: bs)
    | _, _, _ => none

/-! ### `path.go` (POSIX branch: `os.PathSeparator = '/'`). -/

/-- `SamePath` (path.go): on POSIX, plain string equality. -/
def SamePath (path1 path2 : GoStr) : Bool := path1 == path2

/-- `SameOrInFolder` (path.go): `child` equals `parent` or lies inside it. -/
def SameOrInFolder (parent child : GoStr) : Bool :=
  if parent.length > child.length then false
  else if parent.length = child.length then SamePath parent child
  else if child.get? parent.length ≠ some '/' then false
  else parent.isPrefixOf child

/-- `GetPathAsKey` (path.go): on POSIX, the identity. -/
def GetPathAsKey (path : GoStr) : GoStr := path

/-- Index of the last occurrence of a character (`strings.LastIndexByte`). -/
def lastIndexOf (c : Char) : GoStr → Option Nat
  | [] => none
  | x :: xs =>
    match lastIndexOf c xs with
    | some i => some (i + 1)
    | none => if x = c then some 0 else none

/-- `GetBaseName` (path.go): the part after the final separator; fails when
there is no separator or the separator is the final character. -/
def GetBaseName (path : GoStr) : Option GoStr :=
  match lastIndexOf '/' path with
  | none => none
  | some index =>
    if index = path.length - 1 then none else some (path.drop (index + 1))

/-- `filepath.IsAbs` on POSIX: the path starts with a separator. -/
def isAbsPath (path : GoStr) : Bool := path.head? == some '/'

/-! ### Data model (`scan.go`). -/

/-- Abstraction of `os.FileInfo`: the attributes the code reads, plus an
`id` standing for the underlying filesystem object (for `os.SameFile`). -/
structure FileInfo where
  name : GoStr
  size : Int
  modTime : Int
  id : Nat
deriving DecidableEq, Repr

/-- `os.SameFile`: false when either interface value is nil. -/
def sameFile : Option FileInfo → Option FileInfo → Bool
  | some a, some b => a.id == b.id
  | _, _ => false

/-- `FileAttr` (scan.go): the digest is a list of bytes (length 32 for a
well-formed SHA256 value); `Details` is the possibly-nil `os.FileInfo`. -/
structure FileAttr where
  Path : GoStr
  Name : GoStr
  ModTime : Int
  Size : Int
  SHA256 : List Nat
  Details : Option FileInfo
deriving DecidableEq, Repr

/-! ### Cache line format (`FileAttr.ReadCache` / `FileAttr.SaveCache`). -/

/-- `strings.Split` on a one-character separator. -/
def goSplit (sep : Char) : GoStr → List GoStr
  | [] => [[]]
  | c :: rest =>
    if c = sep then [] :: goSplit sep rest
    else
      match goSplit sep rest with
      | f :: fs => (c :: f) :: fs
      | [] => [[c]]

/-- The line written by `FileAttr.SaveCache` (without the trailing newline):
`path|modTime|size|hex-digest`. -/
def saveCacheLine (r : FileAttr) : GoStr :=
  r.Path ++ '|' :: intDecimal r.ModTime ++ '|' :: intDecimal r.Size ++
    '|' :: bytesToHex r.SHA256

/-- `FileAttr.ReadCache` applied to one line (the buffered reader strips the
newline): split on `|`, require 4 fields, an absolute path with a derivable
base name, non-negative 64-bit integers, and a 32-byte hex digest. The
resulting record has a nil `Details` field. -/
def parseCacheLine (line : GoStr) : Option FileAttr :=
  match goSplit '|' line with
  | [f0, f1, f2, f3] =>
    if ¬ isAbsPath f0 then none
    else
      match GetBaseName f0 with
      | none => none
      | some name =>
        match goParseInt f1 with
        | none => none
        | some modTime =>
          if modTime < 0 then none
          else
            match goParseInt f2 with
            | none => none
            | some size =>
              if size < 0 then none
              else
                match hexToBytes f3 with
                | none => none
                | some digest =>
                  if digest.length ≠ 32 then none
                  else some ⟨f0, name, modTime, size, digest, none⟩
  | _ => none

/-! ### `policy.go`. -/

def DELETE_WHICH_FIRST : Nat := 0
def DELETE_WHICH_SECOND : Nat := 1
def DELETE_WHICH_EITHER : Nat := 2
def DELETE_WHICH_NEITHER : Nat := 3

def POLICY_CATEGORY_MOD_TIME : Nat := 0
def POLICY_CATEGORY_NAME : Nat := 1
def POLICY_CATEGORY_PATH : Nat := 2
def POLICY_CATEGORY_COUNT : Nat := 3

/-- `policyItem` (policy.go). -/
structure policyItem where
  category : Nat
  value : Int
deriving DecidableEq, Repr

/-- `policyItemMapping` (policy.go): token → policy item. -/
def policyItemMapping (name : GoStr) : Option policyItem :=
  if name = "old".toList then some ⟨POLICY_CATEGORY_MOD_TIME, -1⟩
  else if name = "new".toList then some ⟨POLICY_CATEGORY_MOD_TIME, 1⟩
  else if name = "shortname".toList then some ⟨POLICY_CATEGORY_NAME, -1⟩
  else if name = "longname".toList then some ⟨POLICY_CATEGORY_NAME, 1⟩
  else if name = "shortpath".toList then some ⟨POLICY_CATEGORY_PATH, -1⟩
  else if name = "longpath".toList then some ⟨POLICY_CATEGORY_PATH, 1⟩
  else none

/-- `defaultPolicyItems` (policy.go). -/
def defaultPolicyItems : List policyItem :=
  [⟨POLICY_CATEGORY_NAME, 1⟩, ⟨POLICY_CATEGORY_PATH, 1⟩,
   ⟨POLICY_CATEGORY_MOD_TIME, 1⟩]

/-- Decision of one rule when its compared attribute differs: the `switch`
case bodies of `policyImpl.DeleteWhich`. -/
def ruleDecide (item : policyItem) (firstLess : Bool) : Nat :=
  if firstLess then
    if item.value < 0 then DELETE_WHICH_FIRST else DELETE_WHICH_SECOND
  else
    if item.value < 0 then DELETE_WHICH_SECOND else DELETE_WHICH_FIRST

/-- The rule loop of `policyImpl.DeleteWhich`. -/
def deleteWhichLoop (first second : FileAttr) : List policyItem → Nat
  | [] => DELETE_WHICH_EITHER
  | item :: rest =>
    if item.category = POLICY_CATEGORY_MOD_TIME then
      if first.ModTime ≠ second.ModTime then
        ruleDecide item (first.ModTime < second.ModTime)
      else deleteWhichLoop first second rest
    else if item.category = POLICY_CATEGORY_NAME then
      if first.Name.length ≠ second.Name.length then
        ruleDecide item (first.Name.length < second.Name.length)
      else deleteWhichLoop first second rest
    else if item.category = POLICY_CATEGORY_PATH then
      if first.Path.length ≠ second.Path.length then
        ruleDecide item (first.Path.length < second.Path.length)
      else deleteWhichLoop first second rest
    else deleteWhichLoop first second rest

/-- `policyImpl.DeleteWhich` (policy.go): size / same-path / same-file safety
checks, then the rule loop. -/
def deleteWhich (items : List policyItem) (first second : FileAttr) : Nat :=
  if first.Size ≠ second.Size then DELETE_WHICH_NEITHER
  else if SamePath first.Path second.Path then DELETE_WHICH_NEITHER
  else if sameFile first.Details second.Details then DELETE_WHICH_NEITHER
  else deleteWhichLoop first second items

/-- `policyItemExist` (policy.go). -/
def policyItemExist (items : List policyItem) (category : Nat) : Bool :=
  items.any (fun item => item.category == category)

/-- The user-spec parsing loop of `NewPolicy`: recognized tokens are mapped
and appended unless their category was already taken. -/
def parseUserItems : List GoStr → List policyItem → Option (List policyItem)
  | [], acc => some acc
  | t :: rest, acc =>
    match policyItemMapping t with
    | none => none
    | some newItem =>
      if policyItemExist acc newItem.category then none
      else parseUserItems rest (acc ++ [newItem])

/-- The default-filling loop of `NewPolicy` (with its early break once all
`POLICY_CATEGORY_COUNT` slots are filled). -/
def fillDefaults (acc : List policyItem) : List policyItem → List policyItem
  | [] => acc
  | d :: rest =>
    if policyItemExist acc d.category then fillDefaults acc rest
    else
      let acc2 := acc ++ [d]
      if acc2.length = POLICY_CATEGORY_COUNT then acc2 else fillDefaults acc2 rest

/-- The token list `NewPolicy` iterates over: nothing for an empty spec,
otherwise `strings.Split(strings.ToLower(spec), ",")`. -/
def policyTokens (spec : GoStr) : List GoStr :=
  if spec = [] then [] else goSplit ',' (spec.map Char.toLower)

/-- `NewPolicy` (policy.go); `none` models `ErrInvalidPolicy`. -/
def NewPolicy (spec : GoStr) : Option (List policyItem) :=
  match parseUserItems (policyTokens spec) [] with
  | none => none
  | some user =>
    some (if user.length < POLICY_CATEGORY_COUNT
          then fillDefaults user defaultPolicyItems else user)

/-! ### `scan.go`: scanner state and per-file step. -/

/-- The mutable state of `fileScannerImpl` touched by the per-file step:
the path-keyed cache table, the digest-keyed duplicate buckets, the totals
and the dirty flag. -/
structure ScannerState where
  cacheFiles : List (GoStr × FileAttr)
  scannedFiles : List (List Nat × List FileAttr)
  totalFiles : Nat
  totalBytes : Int
  cacheDirty : Bool
deriving DecidableEq, Repr

/-- A file as found on disk during a scan: its path, its `os.FileInfo`, and
the digest of its content (the Digest Engine is deterministic, so the
content is represented by its digest). -/
structure FsFile where
  path : GoStr
  info : FileInfo
  digest : List Nat
deriving DecidableEq, Repr

/-- The condition on which `fileScannerImpl.onFileFound` drops the new
record when compared with one current bucket member: size mismatch, same
canonical path, or same underlying filesystem object. -/
def pairConflict (existing newFile : FileAttr) : Bool :=
  existing.Size ≠ newFile.Size || SamePath existing.Path newFile.Path ||
    sameFile existing.Details newFile.Details

/-- `fileScannerImpl.onFileFound` (scan.go): update the digest buckets and
the totals. If a bucket for the digest exists and any current member
conflicts with the new record, the function returns early with no change. -/
def onFileFound (s : ScannerState) (newFile : FileAttr) : ScannerState :=
  match alistLookup s.scannedFiles newFile.SHA256 with
  | some list =>
    if list.any (fun existing => pairConflict existing newFile) then s
    else
      { s with
        scannedFiles := alistInsert s.scannedFiles newFile.SHA256 (list ++ [newFile])
        totalFiles := s.totalFiles + 1
        totalBytes := s.totalBytes + newFile.Size }
  | none =>
    { s with
      scannedFiles := alistInsert s.scannedFiles newFile.SHA256 [newFile]
      totalFiles := s.totalFiles + 1
      totalBytes := s.totalBytes + newFile.Size }

/-- `fileScannerImpl.scanFile` (scan.go) on a readable file. The returned
Boolean records whether the file's content was read and hashed. On a cache
hit (equal size and modification time) the cached record is confirmed by
setting its `Details` field; otherwise a fresh record with the newly
computed digest replaces the cache entry and the dirty flag is set. -/
def scanFile (s : ScannerState) (f : FsFile) : ScannerState × Bool :=
  let key := GetPathAsKey f.path
  let fresh :=
    let newValue : FileAttr :=
      ⟨f.path, f.info.name, f.info.modTime, f.info.size, f.digest, some f.info⟩
    let s2 := { s with
      cacheFiles := alistInsert s.cacheFiles key newValue
      cacheDirty := true }
    (onFileFound s2 newValue, true)
  match alistLookup s.cacheFiles key with
  | some value =>
    if value.Size = f.info.size ∧ value.ModTime = f.info.modTime then
      let value2 := { value with Details := some f.info }
      let s2 := { s with cacheFiles := alistInsert s.cacheFiles key value2 }
      (onFileFound s2 value2, false)
    else fresh
  | none => fresh

/-- A full scan over the regular files found by the traversal, in the order
they are encountered: `scanFile` folded over the list. -/
def scanList (s : ScannerState) (files : List FsFile) : ScannerState :=
  files.foldl (fun st f => (scanFile st f).1) s

/-- The records the resolution loop in `main_i` actually processes: it
iterates the scanner's path-keyed table and skips every record whose
`Details` field is still nil. -/
def resolveCandidates (table : List (GoStr × FileAttr)) : List FileAttr :=
  (table.map Prod.snd).filter (fun f => f.Details.isSome)

/-- `fileScannerImpl.SaveCache` output: `none` when the dirty flag is
clear (no rewrite), otherwise one line per entry of the path-keyed table. -/
def saveCacheOutput (s : ScannerState) : Option (List GoStr) :=
  if s.cacheDirty then
    some (s.cacheFiles.map (fun kv => saveCacheLine kv.2 ++ ['\n']))
  else none

/-- `fileScannerImpl.ReadCache` (scan.go): parse records line by line into
the path-keyed table; at the first malformed line stop and report the error
(the Boolean), leaving the records already read in the table. End of input
is not an error. -/
def scannerReadCache (table : List (GoStr × FileAttr)) :
    List GoStr → List (GoStr × FileAttr) × Bool
  | [] => (table, false)
  | line :: rest =>
    match parseCacheLine line with
    | some r => scannerReadCache (alistInsert table (GetPathAsKey r.Path) r) rest
    | none => (table, true)

/-- The table produced by loading a list of lines, ignoring malformed ones'
effect on control flow (helper used to state what a stopped load keeps). -/
def loadRecords (table : List (GoStr × FileAttr)) (lines : List GoStr) :
    List (GoStr × FileAttr) :=
  lines.foldl
    (fun tb line =>
      match parseCacheLine line with
      | some r => alistInsert tb (GetPathAsKey r.Path) r
      | none => tb)
    table

/-! ### `filter.go`. -/

/-- `filterImpl` (filter.go): cache directory and extension filters. -/
structure FilterState where
  cacheDir : GoStr
  includeExts : List GoStr
  excludeExts : List GoStr
deriving DecidableEq, Repr

/-- `filepath.Ext` on a bare name: the suffix starting at the final dot,
empty when there is no dot. -/
def goExt (name : GoStr) : GoStr :=
  match lastIndexOf '.' name with
  | none => []
  | some i => name.drop i

/-- `filterImpl.Skip` (filter.go): anything at or below the cache directory
is skipped; folders are otherwise never skipped; then the exclude and
include extension filters are consulted. -/
def filterSkip (me : FilterState) (path name : GoStr) (isDir : Bool) : Bool :=
  if SameOrInFolder me.cacheDir path then true
  else if isDir then false
  else if me.includeExts = [] ∧ me.excludeExts = [] then false
  else
    let ext := (goExt name).map Char.toLower
    if me.excludeExts.contains ext then true
    else if me.includeExts ≠ [] then
      if me.includeExts.contains ext then false else true
    else false

/-! ### Specification-side definitions (written from the spec's wording, to
be compared with the code-side definitions above). -/

/-- Spec-side collision-safety check: equal size, distinct canonical paths,
distinct underlying filesystem objects. -/
def collisionSafe (a b : FileAttr) : Bool :=
  a.Size == b.Size && !SamePath a.Path b.Path && !sameFile a.Details b.Details

/-- Spec-side: does the attribute compared by a rule category differ
between the two records? Unknown categories never differentiate. -/
def categoryDiffers (cat : Nat) (a b : FileAttr) : Bool :=
  if cat = POLICY_CATEGORY_MOD_TIME then a.ModTime ≠ b.ModTime
  else if cat = POLICY_CATEGORY_NAME then a.Name.length ≠ b.Name.length
  else if cat = POLICY_CATEGORY_PATH then a.Path.length ≠ b.Path.length
  else false

/-- Spec-side: is the first record's compared attribute smaller (older
mod-time, shorter name, shorter path)? -/
def attrLess (cat : Nat) (a b : FileAttr) : Bool :=
  if cat = POLICY_CATEGORY_MOD_TIME then a.ModTime < b.ModTime
  else if cat = POLICY_CATEGORY_NAME then a.Name.length < b.Name.length
  else a.Path.length < b.Path.length

/-- Spec-side `DeleteWhich`: run the collision-safety check first and
return `NEITHER` on failure; otherwise the first rule in priority order
whose compared attribute differs decides `FIRST`/`SECOND` per its
direction; if no rule differentiates, return `EITHER`. -/
def deleteWhichSpec (items : List policyItem) (a b : FileAttr) : Nat :=
  if !collisionSafe a b then DELETE_WHICH_NEITHER
  else
    match items.find? (fun it => categoryDiffers it.category a b) with
    | some it => ruleDecide it (attrLess it.category a b)
    | none => DELETE_WHICH_EITHER

/-- Spec-side: a nonempty all-digit string. -/
def allDigits (s : GoStr) : Bool := s ≠ [] && s.all Char.isDigit

/-- Spec-side: the field parses under `ParseInt(s, 10, 64)` to a
non-negative value: an optional sign followed by digits, within the 64-bit
signed range, with value at least zero. -/
def numericNonneg (s : GoStr) : Bool :=
  match s with
  | [] => false
  | c :: rest =>
    if c = '+' then allDigits rest && digitsVal rest < 2 ^ 63
    else if c = '-' then allDigits rest && digitsVal rest = 0
    else allDigits s && digitsVal s < 2 ^ 63

/-- Spec-side: a valid hex digest of the fixed (32-byte, 64-character)
length. -/
def validHexDigest (s : GoStr) : Bool :=
  s.length = 64 && s.all (fun c => (hexVal c).isSome)

/-- Spec-side enumeration of the malformed-cache-line conditions: other
than 4 `|`-separated fields, a non-absolute path, a path with no derivable
base name, a modTime or size field that does not parse as a non-negative
64-bit integer, or an invalid digest. -/
def badLine (line : GoStr) : Bool :=
  match goSplit '|' line with
  | [f0, f1, f2, f3] =>
    !isAbsPath f0 || (GetBaseName f0).isNone || !numericNonneg f1 ||
      !numericNonneg f2 || !validHexDigest f3
  | _ => true

/-! ### Concrete records for the scenario claims. -/

/-- A fixed 32-byte digest shared by the byte-identical scenario files. -/
def digestA : List Nat :=
  [17, 34, 51, 68, 85, 102, 119, 136, 153, 170, 187, 204, 221, 238, 255, 0,
   1, 2, 3, 4, 5, 6, 7, 8, 9, 10, 11, 12, 13, 14, 15, 16]

/-- Scenario file `/rootA/file_a.txt`: older modification time. -/
def fileA : FileAttr :=
  ⟨"/rootA/file_a.txt".toList, "file_a.txt".toList, 100, 11, digestA,
   some ⟨"file_a.txt".toList, 11, 100, 1⟩⟩

/-- Scenario file `/rootB/file_a_longer.txt`: same content, newer
modification time, longer name. -/
def fileALonger : FileAttr :=
  ⟨"/rootB/file_a_longer.txt".toList, "file_a_longer.txt".toList, 200, 11,
   digestA, some ⟨"file_a_longer.txt".toList, 11, 200, 2⟩⟩

/-- Swapping the arguments of `DeleteWhich` exchanges `FIRST` and `SECOND`
and fixes `EITHER` and `NEITHER`. -/
def swapResult (r : Nat) : Nat := if r = 0 then 1 else if r = 1 then 0 else r

/-- A concrete filter state for the cache-directory skip scenario. -/
def filterHome : FilterState := ⟨"/home/u/.dedup".toList, [], []⟩

/-- Bucket member for the grouping scenarios: size 5, object id 11. -/
def memberA : FileAttr :=
  ⟨"/a/x".toList, "x".toList, 10, 5, digestA, some ⟨"x".toList, 5, 10, 11⟩⟩

/-- Same-digest record with a different size: it fails the collision-safety
check against `memberA`. -/
def newcomerBad : FileAttr :=
  ⟨"/a/y".toList, "y".toList, 20, 7, digestA, some ⟨"y".toList, 7, 20, 12⟩⟩

/-- Same-digest, same-size record at a distinct path with a distinct
underlying object: it passes the check against `memberA`. -/
def newcomerGood : FileAttr :=
  ⟨"/a/z".toList, "z".toList, 30, 5, digestA, some ⟨"z".toList, 5, 30, 13⟩⟩

/-- Scanner state with the single bucket `digestA ↦ [memberA]`. -/
def stateBucket : ScannerState := ⟨[], [(digestA, [memberA])], 1, 5, false⟩

/-- A cache record never confirmed during the scan (nil `Details`). -/
def staleAttr : FileAttr := ⟨"/a/x".toList, "x".toList, 10, 5, digestA, none⟩

/-- Scanner state as after loading a cache holding only `staleAttr`. -/
def stateStale : ScannerState :=
  ⟨[("/a/x".toList, staleAttr)], [], 0, 0, false⟩

/-- A scanned disk file at a path different from `staleAttr`'s. -/
def fsFileY : FsFile := ⟨"/a/y".toList, ⟨"y".toList, 7, 20, 12⟩, digestA⟩

/-- A disk file at `staleAttr`'s path with matching size and mod-time. -/
def fsFileX : FsFile := ⟨"/a/x".toList, ⟨"x".toList, 5, 10, 11⟩, digestA⟩

/-- A well-formed cache line: the serialization of `staleAttr`. -/
def goodLine : GoStr := saveCacheLine staleAttr

/-- A malformed cache line (3 fields instead of 4). -/
def badLineEx : GoStr := "a|b|c".toList

/-- Spec-side: the user policy specification is invalid — it contains an
unrecognized token or names the same rule category more than once. -/
def specInvalid (spec : GoStr) : Prop :=
  (∃ t ∈ policyTokens spec, policyItemMapping t = none) ∨
  ¬ (((policyTokens spec).filterMap policyItemMapping).map
      policyItem.category).Nodup

/-! ### Association-list lemmas. -/

lemma alistLookup_insert_self {α β : Type} [DecidableEq α]
    (l : List (α × β)) (k : α) (v : β) :
    alistLookup (alistInsert l k v) k = some v := by
  induction l with
  | nil => simp [alistInsert, alistLookup]
  | cons kv rest ih =>
    obtain ⟨k', v'⟩ := kv
    by_cases h : k = k' <;> simp [alistInsert, alistLookup, h, ih]

lemma alistLookup_insert_ne {α β : Type} [DecidableEq α]
    (l : List (α × β)) (k k' : α) (v : β) (h : k' ≠ k) :
    alistLookup (alistInsert l k v) k' = alistLookup l k' := by
  induction l with
  | nil => simp [alistInsert, alistLookup, h]
  | cons kv rest ih =>
    obtain ⟨k0, v0⟩ := kv
    by_cases hk : k = k0
    · subst hk
      simp [alistInsert, alistLookup, h]
    · by_cases hk' : k' = k0 <;> simp [alistInsert, alistLookup, hk, hk', ih]

/-! ### Policy lemmas. -/

lemma deleteWhichLoop_eq_find (a b : FileAttr) (items : List policyItem) :
    deleteWhichLoop a b items =
      match items.find? (fun it => categoryDiffers it.category a b) with
      | some it => ruleDecide it (attrLess it.category a b)
      | none => DELETE_WHICH_EITHER := by
  induction items with
  | nil => rfl
  | cons it rest ih =>
    rw [deleteWhichLoop, List.find?_cons]
    by_cases h0 : it.category = 0
    · by_cases hd : a.ModTime ≠ b.ModTime
      · simp [h0, hd, categoryDiffers, attrLess, POLICY_CATEGORY_MOD_TIME,
          POLICY_CATEGORY_NAME, POLICY_CATEGORY_PATH]
      · simp [h0, hd, categoryDiffers, ih, POLICY_CATEGORY_MOD_TIME,
          POLICY_CATEGORY_NAME, POLICY_CATEGORY_PATH]
    · by_cases h1 : it.category = 1
      · by_cases hd : a.Name.length ≠ b.Name.length
        · simp [h0, h1, hd, categoryDiffers, attrLess,
            POLICY_CATEGORY_MOD_TIME, POLICY_CATEGORY_NAME,
            POLICY_CATEGORY_PATH]
        · simp [h0, h1, hd, categoryDiffers, ih, POLICY_CATEGORY_MOD_TIME,
            POLICY_CATEGORY_NAME, POLICY_CATEGORY_PATH]
      · by_cases h2 : it.category = 2
        · by_cases hd : a.Path.length ≠ b.Path.length
          · simp [h0, h1, h2, hd, categoryDiffers, attrLess,
              POLICY_CATEGORY_MOD_TIME, POLICY_CATEGORY_NAME,
              POLICY_CATEGORY_PATH]
          · simp [h0, h1, h2, hd, categoryDiffers, ih,
              POLICY_CATEGORY_MOD_TIME, POLICY_CATEGORY_NAME,
              POLICY_CATEGORY_PATH]
        · simp [h0, h1, h2, categoryDiffers, ih, POLICY_CATEGORY_MOD_TIME,
            POLICY_CATEGORY_NAME, POLICY_CATEGORY_PATH]

lemma categoryDiffers_comm (cat : Nat) (a b : FileAttr) :
    categoryDiffers cat b a = categoryDiffers cat a b := by
  unfold categoryDiffers
  split_ifs <;> simp [ne_comm]

lemma decideSwapInt (a b : Int) (h : a ≠ b) :
    (decide (b < a)) = !decide (a < b) := by
  by_cases hab : a < b
  · have hba : ¬ b < a := by omega
    simp [hab, hba]
  · have hba : b < a := by omega
    simp [hab, hba]

lemma decideSwapNat (a b : Nat) (h : a ≠ b) :
    (decide (b < a)) = !decide (a < b) := by
  by_cases hab : a < b
  · have hba : ¬ b < a := by omega
    simp [hab, hba]
  · have hba : b < a := by omega
    simp [hab, hba]

lemma attrLess_swap (cat : Nat) (a b : FileAttr)
    (h : categoryDiffers cat a b = true) :
    attrLess cat b a = !attrLess cat a b := by
  unfold categoryDiffers at h
  unfold attrLess
  simp only [POLICY_CATEGORY_MOD_TIME, POLICY_CATEGORY_NAME,
    POLICY_CATEGORY_PATH] at h ⊢
  split_ifs at h ⊢
  · exact decideSwapInt _ _ (fun e => by simp [e] at h)
  · exact decideSwapNat _ _ (fun e => by simp [e] at h)
  · exact decideSwapNat _ _ (fun e => by simp [e] at h)

lemma ruleDecide_swap (it : policyItem) (x : Bool) :
    ruleDecide it (!x) = swapResult (ruleDecide it x) := by
  unfold ruleDecide swapResult
  by_cases hv : it.value < 0 <;> cases x <;>
    simp [hv, DELETE_WHICH_FIRST, DELETE_WHICH_SECOND]

lemma deleteWhichLoop_swap (a b : FileAttr) (items : List policyItem) :
    deleteWhichLoop b a items = swapResult (deleteWhichLoop a b items) := by
  rw [deleteWhichLoop_eq_find, deleteWhichLoop_eq_find]
  have hpred : (fun it : policyItem => categoryDiffers it.category b a) =
      (fun it => categoryDiffers it.category a b) := by
    funext it
    exact categoryDiffers_comm it.category a b
  rw [hpred]
  cases hf : List.find? (fun it => categoryDiffers it.category a b) items with
  | none => rfl
  | some it =>
    have hdif := List.find?_some hf
    simp only [attrLess_swap it.category a b hdif, ruleDecide_swap]

lemma sameFile_comm (x y : Option FileInfo) : sameFile x y = sameFile y x := by
  cases x with
  | none => cases y <;> rfl
  | some a =>
    cases y with
    | none => rfl
    | some b =>
      by_cases h : a.id = b.id
      · simp [sameFile, h]
      · have h' : ¬ b.id = a.id := fun e => h e.symm
        simp [sameFile, h, h']

lemma deleteWhich_swap (items : List policyItem) (a b : FileAttr) :
    deleteWhich items b a = swapResult (deleteWhich items a b) := by
  unfold deleteWhich
  by_cases hs : a.Size = b.Size
  case neg =>
    rw [if_pos (show b.Size ≠ a.Size from fun e => hs e.symm),
        if_pos (show a.Size ≠ b.Size from hs)]
    rfl
  rw [if_neg (show ¬ b.Size ≠ a.Size from fun hne => hne hs.symm),
      if_neg (show ¬ a.Size ≠ b.Size from fun hne => hne hs)]
  by_cases hp : SamePath a.Path b.Path
  case pos =>
    have hp' : SamePath b.Path a.Path := by
      simp only [SamePath, beq_iff_eq] at hp ⊢
      exact hp.symm
    rw [if_pos hp', if_pos hp]
    rfl
  have hp' : ¬ SamePath b.Path a.Path := by
    simp only [SamePath, beq_iff_eq] at hp ⊢
    exact fun e => hp e.symm
  rw [if_neg hp', if_neg hp]
  by_cases hf : sameFile a.Details b.Details
  case pos =>
    have hf' : sameFile b.Details a.Details := by
      rw [sameFile_comm]; exact hf
    rw [if_pos hf', if_pos hf]
    rfl
  have hf' : ¬ sameFile b.Details a.Details := by
    rw [sameFile_comm]; exact hf
  rw [if_neg hf', if_neg hf]
  exact deleteWhichLoop_swap a b items

/-- C1: for every ordered pair of file records, `DeleteWhich` first runs the
collision-safety check (equal size, distinct canonical paths, distinct
underlying filesystem objects) and returns `NEITHER` when it fails;
otherwise the first rule in priority order whose compared attribute
(mod-time, name length, or path length) differs between the two records
decides `FIRST`/`SECOND` per that rule's direction, and the result is
`EITHER` when no rule differentiates them. -/
theorem deleteWhich_refines_spec (items : List policyItem) (a b : FileAttr) :
    deleteWhich items a b = deleteWhichSpec items a b := by
  unfold deleteWhich deleteWhichSpec
  by_cases hs : a.Size = b.Size
  · by_cases hp : SamePath a.Path b.Path
    · simp [collisionSafe, hs, hp]
    · by_cases hf : sameFile a.Details b.Details
      · simp [collisionSafe, hs, hp, hf]
      · simp [collisionSafe, hs, hp, hf]
        exact deleteWhichLoop_eq_find a b items
  · simp [collisionSafe, hs]

/-- C10: `DeleteWhich` is antisymmetric under argument swap: swapping the
pair exchanges `FIRST` and `SECOND` and fixes `EITHER` and `NEITHER`, so
the keeper chosen from a pair does not depend on encounter order. -/
theorem deleteWhich_antisymm (items : List policyItem) (a b : FileAttr) :
    (deleteWhich items a b = DELETE_WHICH_FIRST ↔
      deleteWhich items b a = DELETE_WHICH_SECOND) ∧
    (deleteWhich items a b = DELETE_WHICH_EITHER ↔
      deleteWhich items b a = DELETE_WHICH_EITHER) ∧
    (deleteWhich items a b = DELETE_WHICH_NEITHER ↔
      deleteWhich items b a = DELETE_WHICH_NEITHER) := by
  rw [deleteWhich_swap items a b]
  unfold swapResult DELETE_WHICH_FIRST DELETE_WHICH_SECOND
    DELETE_WHICH_EITHER DELETE_WHICH_NEITHER
  generalize deleteWhich items a b = r
  refine ⟨?_, ?_, ?_⟩ <;> split_ifs <;> simp_all

lemma policyItemExist_iff_mem (items : List policyItem) (c : Nat) :
    policyItemExist items c = true ↔ c ∈ items.map policyItem.category := by
  unfold policyItemExist
  rw [List.any_eq_true]
  constructor
  · rintro ⟨x, hx, he⟩
    exact List.mem_map.mpr ⟨x, hx, by simpa using he⟩
  · intro hmem
    rcases List.mem_map.mp hmem with ⟨x, hx, he⟩
    exact ⟨x, hx, by simp [he]⟩

lemma policyItemMapping_category_lt (t : GoStr) (item : policyItem)
    (h : policyItemMapping t = some item) : item.category < 3 := by
  unfold policyItemMapping at h
  split_ifs at h <;> injection h with h2 <;> subst h2 <;> decide

lemma parseUserItems_some (ts : List GoStr) (acc out : List policyItem)
    (h : parseUserItems ts acc = some out) :
    out = acc ++ ts.filterMap policyItemMapping := by
  induction ts generalizing acc with
  | nil =>
    simp only [parseUserItems, Option.some_inj] at h
    simp [h.symm]
  | cons t rest ih =>
    unfold parseUserItems at h
    cases hm : policyItemMapping t with
    | none => rw [hm] at h; exact absurd h (by simp)
    | some item =>
      rw [hm] at h
      by_cases hex : policyItemExist acc item.category
      · simp [hex] at h
      · simp only [hex, Bool.false_eq_true, if_false] at h
        rw [ih (acc ++ [item]) h, List.append_assoc, List.singleton_append,
          List.filterMap_cons_some hm]

lemma parseUserItems_none_iff (ts : List GoStr) (acc : List policyItem)
    (hacc : (acc.map policyItem.category).Nodup) :
    parseUserItems ts acc = none ↔
      (∃ t ∈ ts, policyItemMapping t = none) ∨
      ¬ (acc.map policyItem.category ++
          (ts.filterMap policyItemMapping).map policyItem.category).Nodup := by
  induction ts generalizing acc with
  | nil => simp [parseUserItems, hacc]
  | cons t rest ih =>
    unfold parseUserItems
    cases hm : policyItemMapping t with
    | none =>
      simp only [List.filterMap_cons_none hm]
      constructor
      · intro _
        exact Or.inl ⟨t, List.mem_cons_self t rest, hm⟩
      · intro _
        trivial
    | some item =>
      simp only [List.filterMap_cons_none, List.filterMap_cons_some hm]
      by_cases hex : policyItemExist acc item.category
      · simp only [hex, if_true]
        constructor
        · intro _
          refine Or.inr (fun hnd => ?_)
          rcases List.nodup_append.mp hnd with ⟨_, _, hdisj⟩
          have hmem : item.category ∈ acc.map policyItem.category :=
            (policyItemExist_iff_mem acc item.category).mp hex
          exact hdisj hmem (by simp)
        · intro _
          trivial
      · simp only [hex, Bool.false_eq_true, if_false]
        have hacc2 : ((acc ++ [item]).map policyItem.category).Nodup := by
          rw [List.map_append]
          refine List.nodup_append.mpr ⟨hacc, by simp, ?_⟩
          intro c hc hc2
          simp only [List.map_cons, List.map_nil, List.mem_singleton] at hc2
          subst hc2
          exact hex ((policyItemExist_iff_mem acc item.category).mpr hc)
        rw [ih (acc ++ [item]) hacc2]
        have hlist : (acc ++ [item]).map policyItem.category ++
            (rest.filterMap policyItemMapping).map policyItem.category =
            acc.map policyItem.category ++
              (item.category ::
                (rest.filterMap policyItemMapping).map policyItem.category) := by
          simp [List.map_append, List.append_assoc]
        rw [hlist]
        constructor
        · rintro (⟨t2, ht2, hmt2⟩ | hnd)
          · exact Or.inl ⟨t2, List.mem_cons_of_mem t ht2, hmt2⟩
          · exact Or.inr hnd
        · rintro (⟨t2, ht2, hmt2⟩ | hnd)
          · rcases List.mem_cons.mp ht2 with rfl | ht2'
            · rw [hm] at hmt2
              exact absurd hmt2 (by simp)
            · exact Or.inl ⟨t2, ht2', hmt2⟩
          · exact Or.inr hnd

lemma nodupCount3 (l : List Nat) (hnd : l.Nodup) (hlt : ∀ x ∈ l, x < 3) :
    l.length = (if 0 ∈ l then 1 else 0) + (if 1 ∈ l then 1 else 0) +
      (if 2 ∈ l then 1 else 0) := by
  induction l with
  | nil => simp
  | cons x xs ih =>
    rcases List.nodup_cons.mp hnd with ⟨hx, hxs⟩
    have hx3 : x < 3 := hlt x (List.mem_cons_self x xs)
    have ih' := ih hxs (fun y hy => hlt y (List.mem_cons_of_mem x hy))
    interval_cases x <;>
      simp only [List.mem_cons, List.length_cons, ih', true_or,
        if_true] <;>
      split_ifs at * <;> simp_all

lemma policyItemExist_append (xs : List policyItem) (x : policyItem) (c : Nat) :
    policyItemExist (xs ++ [x]) c =
      (policyItemExist xs c || (x.category == c)) := by
  simp [policyItemExist, List.any_append]

lemma fillDefaults_eq_filter (ds : List policyItem) (acc : List policyItem)
    (hnd : (ds.map policyItem.category).Nodup)
    (hlen : acc.length +
        (ds.filter (fun d => !policyItemExist acc d.category)).length ≤ 3) :
    fillDefaults acc ds =
      acc ++ ds.filter (fun d => !policyItemExist acc d.category) := by
  induction ds generalizing acc with
  | nil => simp [fillDefaults]
  | cons d rest ih =>
    have hnd2 : d.category ∉ rest.map policyItem.category ∧
        (rest.map policyItem.category).Nodup := by
      rw [List.map_cons, List.nodup_cons] at hnd
      exact hnd
    rcases hnd2 with ⟨hdrest, hndrest⟩
    unfold fillDefaults
    by_cases hex : policyItemExist acc d.category
    · have hf : (d :: rest).filter (fun x => !policyItemExist acc x.category) =
          rest.filter (fun x => !policyItemExist acc x.category) := by
        simp [List.filter_cons, hex]
      rw [hf] at hlen
      rw [if_pos hex, hf]
      exact ih acc hndrest hlen
    · have hexf : policyItemExist acc d.category = false :=
        Bool.eq_false_iff.mpr hex
      have hf : (d :: rest).filter (fun x => !policyItemExist acc x.category) =
          d :: rest.filter (fun x => !policyItemExist acc x.category) := by
        simp [List.filter_cons, hexf]
      rw [hf] at hlen
      rw [if_neg hex, hf]
      by_cases h3 : (acc ++ [d]).length = POLICY_CATEGORY_COUNT
      · rw [if_pos h3]
        have hlen3 : acc.length + 1 = 3 := by
          simpa [POLICY_CATEGORY_COUNT] using h3
        have hnil : rest.filter (fun x => !policyItemExist acc x.category) = [] := by
          have : (rest.filter (fun x => !policyItemExist acc x.category)).length = 0 := by
            simp only [List.length_cons] at hlen
            omega
          exact List.eq_nil_of_length_eq_zero this
        rw [hnil]
      · rw [if_neg h3]
        have hpred : rest.filter
              (fun x => !policyItemExist (acc ++ [d]) x.category) =
            rest.filter (fun x => !policyItemExist acc x.category) := by
          apply List.filter_congr
          intro x hx
          have hne : (d.category == x.category) = false := by
            rw [beq_eq_false_iff_ne]
            intro e
            exact hdrest (e ▸ List.mem_map.mpr ⟨x, hx, rfl⟩)
          rw [policyItemExist_append, hne, Bool.or_false]
        have hlen2 : (acc ++ [d]).length +
            (rest.filter
              (fun x => !policyItemExist (acc ++ [d]) x.category)).length ≤ 3 := by
          rw [hpred, List.length_append]
          simp only [List.length_cons] at hlen
          simp only [List.length_singleton]
          omega
        rw [ih (acc ++ [d]) hndrest hlen2, hpred,
          List.append_assoc, List.singleton_append]

/-- C8: `NewPolicy` fails exactly when the user specification contains an
unrecognized token or names the same rule category more than once; on
success the policy has exactly three rules, one per category, the
user-supplied rules first in the user's order, and every omitted category
appended in the default order (name, path, mod-time). -/
theorem NewPolicy_characterization (spec : GoStr) :
    (NewPolicy spec = none ↔ specInvalid spec) ∧
    (∀ items, NewPolicy spec = some items →
      items = (policyTokens spec).filterMap policyItemMapping ++
        defaultPolicyItems.filter
          (fun d => !policyItemExist
            ((policyTokens spec).filterMap policyItemMapping) d.category) ∧
      items.length = 3 ∧
      (items.map policyItem.category).Nodup ∧
      ∀ c, c < 3 → c ∈ items.map policyItem.category) := by
  have hiff := parseUserItems_none_iff (policyTokens spec) [] (by simp)
  simp only [List.map_nil, List.nil_append] at hiff
  constructor
  · unfold NewPolicy
    cases hp : parseUserItems (policyTokens spec) [] with
    | none =>
      simpa [specInvalid] using (hiff.mp hp)
    | some user0 =>
      have hnotinv : ¬ specInvalid spec := by
        intro hinv
        unfold specInvalid at hinv
        have hcontra := hiff.mpr hinv
        rw [hp] at hcontra
        exact absurd hcontra (by simp)
      simp [hnotinv]
  · intro items hitems
    unfold NewPolicy at hitems
    cases hp : parseUserItems (policyTokens spec) [] with
    | none => rw [hp] at hitems; exact Option.noConfusion hitems
    | some user0 =>
      rw [hp] at hitems
      change some (if user0.length < POLICY_CATEGORY_COUNT
        then fillDefaults user0 defaultPolicyItems else user0) = some items
        at hitems
      have huser : user0 = (policyTokens spec).filterMap policyItemMapping := by
        simpa using parseUserItems_some _ [] user0 hp
      have hnodup : (user0.map policyItem.category).Nodup := by
        have hne : parseUserItems (policyTokens spec) [] ≠ none := by
          rw [hp]; simp
        have := (not_iff_not.mpr hiff).mp hne
        push_neg at this
        rw [huser]
        exact this.2
      have hlt : ∀ x ∈ user0, x.category < 3 := by
        intro x hx
        rw [huser] at hx
        rcases List.mem_filterMap.mp hx with ⟨t, _, hmt⟩
        exact policyItemMapping_category_lt t x hmt
      have hcount := nodupCount3 (user0.map policyItem.category) hnodup
        (by intro c hc
            rcases List.mem_map.mp hc with ⟨x, hx, rfl⟩
            exact hlt x hx)
      rw [List.length_map] at hcount
      have hexistb : ∀ c, policyItemExist user0 c =
          decide (c ∈ user0.map policyItem.category) := by
        intro c
        by_cases hc : c ∈ user0.map policyItem.category
        · simp [hc, (policyItemExist_iff_mem user0 c).mpr hc]
        · have : policyItemExist user0 c ≠ true :=
            fun ht => hc ((policyItemExist_iff_mem user0 c).mp ht)
          simp [hc, Bool.eq_false_iff.mpr this]
      have hfl : (defaultPolicyItems.filter
          (fun d => !policyItemExist user0 d.category)).length =
          (if 1 ∈ user0.map policyItem.category then 0 else 1) +
          (if 2 ∈ user0.map policyItem.category then 0 else 1) +
          (if 0 ∈ user0.map policyItem.category then 0 else 1) := by
        simp only [defaultPolicyItems, List.filter_cons, List.filter_nil,
          hexistb, POLICY_CATEGORY_NAME, POLICY_CATEGORY_PATH,
          POLICY_CATEGORY_MOD_TIME]
        by_cases m0 : 0 ∈ user0.map policyItem.category <;>
          by_cases m1 : 1 ∈ user0.map policyItem.category <;>
          by_cases m2 : 2 ∈ user0.map policyItem.category <;>
          simp [m0, m1, m2]
      have hsum : user0.length + (defaultPolicyItems.filter
          (fun d => !policyItemExist user0 d.category)).length = 3 := by
        rw [hfl, hcount]
        by_cases m0 : 0 ∈ user0.map policyItem.category <;>
          by_cases m1 : 1 ∈ user0.map policyItem.category <;>
          by_cases m2 : 2 ∈ user0.map policyItem.category <;>
          simp [m0, m1, m2]
      have hitems2 : items = user0 ++ defaultPolicyItems.filter
          (fun d => !policyItemExist user0 d.category) := by
        by_cases hu3 : user0.length < POLICY_CATEGORY_COUNT
        · rw [if_pos hu3] at hitems
          have := fillDefaults_eq_filter defaultPolicyItems user0
            (by decide) (by omega)
          rw [← this]
          exact (Option.some.inj hitems).symm
        · rw [if_neg hu3] at hitems
          have hu3' : user0.length = 3 := by
            simp only [POLICY_CATEGORY_COUNT] at hu3
            omega
          have hfl0 : (defaultPolicyItems.filter
              (fun d => !policyItemExist user0 d.category)).length = 0 := by
            omega
          rw [List.eq_nil_of_length_eq_zero hfl0, List.append_nil]
          exact (Option.some.inj hitems).symm
      have hfiltercats : ∀ c, c ∈ (defaultPolicyItems.filter
          (fun d => !policyItemExist user0 d.category)).map policyItem.category →
          c ∉ user0.map policyItem.category := by
        intro c hc hcu
        rcases List.mem_map.mp hc with ⟨d, hd, rfl⟩
        rcases List.mem_filter.mp hd with ⟨_, hpd⟩
        rw [hexistb] at hpd
        simp only [Bool.not_eq_eq_eq_not, Bool.not_true, decide_eq_false_iff_not] at hpd
        exact hpd hcu
      refine ⟨by rw [hitems2, huser], ?_, ?_, ?_⟩
      · rw [hitems2, List.length_append, hsum]
      · rw [hitems2, List.map_append]
        refine List.nodup_append.mpr ⟨hnodup, ?_, ?_⟩
        · exact ((List.filter_sublist defaultPolicyItems).map
            policyItem.category).nodup (by decide)
        · intro c hc hc2
          exact hfiltercats c hc2 hc
      · intro c hc
        rw [hitems2, List.map_append, List.mem_append]
        by_cases hcu : c ∈ user0.map policyItem.category
        · exact Or.inl hcu
        · refine Or.inr ?_
          have hnotex : policyItemExist user0 c = false := by
            rw [hexistb]
            simpa using hcu
          interval_cases c
          · refine List.mem_map.mpr ⟨⟨POLICY_CATEGORY_MOD_TIME, 1⟩, ?_, rfl⟩
            refine List.mem_filter.mpr ⟨by decide, ?_⟩
            simpa [POLICY_CATEGORY_MOD_TIME] using hnotex
          · refine List.mem_map.mpr ⟨⟨POLICY_CATEGORY_NAME, 1⟩, ?_, rfl⟩
            refine List.mem_filter.mpr ⟨by decide, ?_⟩
            simpa [POLICY_CATEGORY_NAME] using hnotex
          · refine List.mem_map.mpr ⟨⟨POLICY_CATEGORY_PATH, 1⟩, ?_, rfl⟩
            refine List.mem_filter.mpr ⟨by decide, ?_⟩
            simpa [POLICY_CATEGORY_PATH] using hnotex

/-- C2: with no user policy configured, the policy is the default
name-length, path-length, mod-time order, each preferring to delete the
longer/newer; on the scenario pair (`file_a.txt`, older, vs
`file_a_longer.txt`, newer, same size, different directories) it selects
`file_a_longer.txt` for deletion because the name-length rule differs
first. -/
theorem defaultPolicy_scenario :
    NewPolicy [] = some defaultPolicyItems ∧
    defaultPolicyItems =
      [⟨POLICY_CATEGORY_NAME, 1⟩, ⟨POLICY_CATEGORY_PATH, 1⟩,
       ⟨POLICY_CATEGORY_MOD_TIME, 1⟩] ∧
    fileA.Name.length ≠ fileALonger.Name.length ∧
    fileA.ModTime < fileALonger.ModTime ∧
    deleteWhich defaultPolicyItems fileA fileALonger = DELETE_WHICH_SECOND ∧
    deleteWhich defaultPolicyItems fileALonger fileA = DELETE_WHICH_FIRST := by
  refine ⟨?_, ?_, ?_, ?_, ?_, ?_⟩ <;> decide

/-- C9: every path that equals the cache directory or lies anywhere inside
it is skipped by the Filter, whether file or directory and regardless of
the configured include/exclude extension filters. -/
theorem filterSkip_cacheDir (f : FilterState) (path name : GoStr)
    (isDir : Bool)
    (h : path = f.cacheDir ∨ ∃ rest : GoStr, path = f.cacheDir ++ '/' :: rest) :
    filterSkip f path name isDir = true := by
  have hin : SameOrInFolder f.cacheDir path = true := by
    rcases h with rfl | ⟨rest, rfl⟩
    · unfold SameOrInFolder
      simp [SamePath]
    · unfold SameOrInFolder
      have hlen2 : (f.cacheDir ++ '/' :: rest).length =
          f.cacheDir.length + (rest.length + 1) := by
        simp [List.length_append]
      rw [if_neg (by rw [hlen2]; omega), if_neg (by rw [hlen2]; omega)]
      have hget : (f.cacheDir ++ '/' :: rest)[f.cacheDir.length]? =
          some '/' := by
        rw [List.getElem?_append_right (le_refl _), Nat.sub_self]
        exact List.getElem?_cons_zero
      rw [if_neg (by simp [hget])]
      exact List.isPrefixOf_iff_prefix.mpr ⟨'/' :: rest, rfl⟩
  unfold filterSkip
  rw [if_pos hin]

/-- Witness for C9 at a concrete filter and path inside the cache
directory. -/
theorem filterSkip_cacheDir_witness :
    filterSkip filterHome ("/home/u/.dedup/global.cache".toList)
      ("global.cache".toList) false = true :=
  filterSkip_cacheDir filterHome _ _ false
    (Or.inr ⟨"global.cache".toList, by decide⟩)

lemma onFileFound_cacheFiles (s : ScannerState) (n : FileAttr) :
    (onFileFound s n).cacheFiles = s.cacheFiles := by
  unfold onFileFound
  cases alistLookup s.scannedFiles n.SHA256 with
  | none => rfl
  | some list =>
    dsimp only
    by_cases hc : (list.any fun e => pairConflict e n) = true
    · rw [if_pos hc]
    · rw [if_neg hc]

/-- C3 (amended): a newly confirmed record is appended to its digest's
existing bucket exactly when it passes the collision-safety check against
every current member; when it conflicts with some member the state is
unchanged — the record joins no bucket and the file/byte totals are not
incremented; with no existing bucket a singleton bucket is created and the
totals are incremented. -/
theorem onFileFound_characterization (s : ScannerState) (n : FileAttr) :
    (∀ list, alistLookup s.scannedFiles n.SHA256 = some list →
      ((list.all fun e => !pairConflict e n) = false → onFileFound s n = s) ∧
      ((list.all fun e => !pairConflict e n) = true →
        onFileFound s n = { s with
          scannedFiles := alistInsert s.scannedFiles n.SHA256 (list ++ [n])
          totalFiles := s.totalFiles + 1
          totalBytes := s.totalBytes + n.Size })) ∧
    (alistLookup s.scannedFiles n.SHA256 = none →
      onFileFound s n = { s with
        scannedFiles := alistInsert s.scannedFiles n.SHA256 [n]
        totalFiles := s.totalFiles + 1
        totalBytes := s.totalBytes + n.Size }) := by
  constructor
  · intro list hl
    have hany : (list.any fun e => pairConflict e n) =
        !(list.all fun e => !pairConflict e n) := by
      rw [List.any_eq_not_all_not]
    constructor
    · intro hall
      have hc : (list.any fun e => pairConflict e n) = true := by
        rw [hany, hall]
        rfl
      unfold onFileFound
      rw [hl]
      dsimp only
      rw [if_pos hc]
    · intro hall
      have hc : ¬ (list.any fun e => pairConflict e n) = true := by
        rw [hany, hall]
        simp
      unfold onFileFound
      rw [hl]
      dsimp only
      rw [if_neg hc]
  · intro hl
    unfold onFileFound
    rw [hl]

/-- C3 counterexample: `newcomerBad` shares `memberA`'s digest but fails
the collision-safety check against it (different size); `onFileFound`
leaves the state unchanged — no singleton bucket is created and the
file/byte totals are not incremented, contrary to the claim. -/
theorem onFileFound_no_singleton_counterexample :
    pairConflict memberA newcomerBad = true ∧
    onFileFound stateBucket newcomerBad = stateBucket ∧
    alistLookup (onFileFound stateBucket newcomerBad).scannedFiles
      newcomerBad.SHA256 = some [memberA] ∧
    (onFileFound stateBucket newcomerBad).totalFiles = 1 ∧
    (onFileFound stateBucket newcomerBad).totalBytes = 5 := by
  refine ⟨?_, ?_, ?_, ?_, ?_⟩ <;> decide

/-- Witness for the amended C3: a record passing the check against the sole
bucket member is appended and counted. -/
theorem onFileFound_characterization_witness :
    onFileFound stateBucket newcomerGood = { stateBucket with
      scannedFiles := alistInsert stateBucket.scannedFiles newcomerGood.SHA256
        ([memberA] ++ [newcomerGood])
      totalFiles := stateBucket.totalFiles + 1
      totalBytes := stateBucket.totalBytes + newcomerGood.Size } :=
  ((onFileFound_characterization stateBucket newcomerGood).1 [memberA]
    (by decide)).2 (by decide)

/-- C5: for a file whose path is in the cache table, the per-file step
skips reading content exactly when both the cached size and the cached
modification time equal the file's current ones; on a hit the cached
record (its digest included) is confirmed with its `Details` set, and on a
miss the entry is replaced by a record carrying the freshly computed
digest. -/
theorem scanFile_cache_reuse (s : ScannerState) (f : FsFile)
    (cached : FileAttr)
    (h : alistLookup s.cacheFiles (GetPathAsKey f.path) = some cached) :
    ((scanFile s f).2 = false ↔
      (cached.Size = f.info.size ∧ cached.ModTime = f.info.modTime)) ∧
    ((cached.Size = f.info.size ∧ cached.ModTime = f.info.modTime) →
      alistLookup (scanFile s f).1.cacheFiles (GetPathAsKey f.path) =
        some { cached with Details := some f.info }) ∧
    (¬ (cached.Size = f.info.size ∧ cached.ModTime = f.info.modTime) →
      alistLookup (scanFile s f).1.cacheFiles (GetPathAsKey f.path) =
        some ⟨f.path, f.info.name, f.info.modTime, f.info.size, f.digest,
          some f.info⟩) := by
  unfold scanFile
  dsimp only
  rw [h]
  dsimp only
  by_cases hm : cached.Size = f.info.size ∧ cached.ModTime = f.info.modTime
  · rw [if_pos hm]
    refine ⟨by simp [hm], ?_, fun hc => absurd hm hc⟩
    intro _
    dsimp only
    rw [onFileFound_cacheFiles]
    exact alistLookup_insert_self _ _ _
  · rw [if_neg hm]
    refine ⟨by simp [hm], fun hc => absurd hc hm, ?_⟩
    intro _
    dsimp only
    rw [onFileFound_cacheFiles]
    exact alistLookup_insert_self _ _ _

/-- Witness for C5 at a concrete state: a cache hit (equal size and
mod-time) reuses the cached record without reading content. -/
theorem scanFile_cache_reuse_witness :
    ((scanFile stateStale fsFileX).2 = false ↔
      (staleAttr.Size = fsFileX.info.size ∧
        staleAttr.ModTime = fsFileX.info.modTime)) ∧
    ((staleAttr.Size = fsFileX.info.size ∧
        staleAttr.ModTime = fsFileX.info.modTime) →
      alistLookup (scanFile stateStale fsFileX).1.cacheFiles
        (GetPathAsKey fsFileX.path) =
        some { staleAttr with Details := some fsFileX.info }) ∧
    (¬ (staleAttr.Size = fsFileX.info.size ∧
        staleAttr.ModTime = fsFileX.info.modTime) →
      alistLookup (scanFile stateStale fsFileX).1.cacheFiles
        (GetPathAsKey fsFileX.path) =
        some ⟨fsFileX.path, fsFileX.info.name, fsFileX.info.modTime,
          fsFileX.info.size, fsFileX.digest, some fsFileX.info⟩) :=
  scanFile_cache_reuse stateStale fsFileX staleAttr (by decide)

lemma scanFile_preserves_key (s : ScannerState) (f : FsFile) (k : GoStr)
    (v : FileAttr) (h : alistLookup s.cacheFiles k = some v) :
    ∃ v', alistLookup (scanFile s f).1.cacheFiles k = some v' := by
  have hstep : ∀ (s2 : ScannerState) (val : FileAttr),
      s2.cacheFiles = alistInsert s.cacheFiles (GetPathAsKey f.path) val →
      ∃ v', alistLookup s2.cacheFiles k = some v' := by
    intro s2 val heq
    rw [heq]
    by_cases hk : k = GetPathAsKey f.path
    · subst hk
      exact ⟨val, alistLookup_insert_self _ _ _⟩
    · rw [alistLookup_insert_ne _ _ _ _ hk]
      exact ⟨v, h⟩
  unfold scanFile
  dsimp only
  cases hl : alistLookup s.cacheFiles (GetPathAsKey f.path) with
  | none =>
    dsimp only
    rw [onFileFound_cacheFiles]
    exact hstep _ _ rfl
  | some value =>
    dsimp only
    by_cases hm : value.Size = f.info.size ∧ value.ModTime = f.info.modTime
    · rw [if_pos hm]
      dsimp only
      rw [onFileFound_cacheFiles]
      exact hstep _ _ rfl
    · rw [if_neg hm]
      dsimp only
      rw [onFileFound_cacheFiles]
      exact hstep _ _ rfl

lemma scanList_preserves (files : List FsFile) (s : ScannerState)
    (k : GoStr) (v : FileAttr) (h : alistLookup s.cacheFiles k = some v) :
    ∃ v', alistLookup (scanList s files).cacheFiles k = some v' := by
  induction files generalizing s v with
  | nil => exact ⟨v, h⟩
  | cons f fs ih =>
    rcases scanFile_preserves_key s f k v h with ⟨v', h'⟩
    exact ih (scanFile s f).1 v' h'

/-- C4 (amended): a full scan never removes entries from the scanner's
path-keyed table — there is no pruning, so an entry loaded from the cache
survives the scan even when it was never confirmed; the resolution loop
instead skips every record whose `Details` field is still nil, and a dirty
cache write still persists every table entry, stale ones included. -/
theorem scan_keeps_unconfirmed (s : ScannerState) (files : List FsFile)
    (k : GoStr) (v : FileAttr)
    (h : alistLookup s.cacheFiles k = some v) :
    (∃ v', alistLookup (scanList s files).cacheFiles k = some v') ∧
    (∀ w ∈ resolveCandidates (scanList s files).cacheFiles,
      w.Details ≠ none) ∧
    ((scanList s files).cacheDirty = true →
      ∃ lines, saveCacheOutput (scanList s files) = some lines ∧
        ∀ kv ∈ (scanList s files).cacheFiles,
          (saveCacheLine kv.2 ++ ['\n']) ∈ lines) := by
  refine ⟨scanList_preserves files s k v h, ?_, ?_⟩
  · intro w hw
    rcases List.mem_filter.mp hw with ⟨_, hp⟩
    intro hnone
    rw [hnone] at hp
    exact absurd hp (by simp)
  · intro hd
    refine ⟨(scanList s files).cacheFiles.map
      (fun kv => saveCacheLine kv.2 ++ ['\n']), ?_, ?_⟩
    · unfold saveCacheOutput
      rw [if_pos hd]
    · intro kv hkv
      exact List.mem_map.mpr ⟨kv, hkv, rfl⟩

/-- C4 counterexample: after a full scan over one (new) file, the cache
entry `staleAttr` — never confirmed, `Details` still nil — is still present
in the path-keyed table and is written back by `SaveCache`, so it is not
pruned before resolution as the claim states. -/
theorem scan_no_prune_counterexample :
    staleAttr.Details = none ∧
    alistLookup (scanList stateStale [fsFileY]).cacheFiles ("/a/x".toList) =
      some staleAttr ∧
    (scanList stateStale [fsFileY]).cacheDirty = true ∧
    saveCacheOutput (scanList stateStale [fsFileY]) =
      some [saveCacheLine staleAttr ++ ['\n'],
        saveCacheLine ⟨"/a/y".toList, "y".toList, 20, 7, digestA,
          some ⟨"y".toList, 7, 20, 12⟩⟩ ++ ['\n']] := by
  refine ⟨?_, ?_, ?_, ?_⟩ <;> decide

/-- Witness for the amended C4 at a concrete state: the stale entry
survives the scan. -/
theorem scan_keeps_unconfirmed_witness :
    ∃ v', alistLookup (scanList stateStale [fsFileY]).cacheFiles
      ("/a/x".toList) = some v' :=
  (scan_keeps_unconfirmed stateStale [fsFileY] ("/a/x".toList) staleAttr
    (by decide)).1

/-! ### Decimal and hex round-trip lemmas. -/

lemma digitChar_isDigit (d : Nat) (h : d < 10) : (digitChar d).isDigit = true := by
  interval_cases d <;> decide

lemma digitChar_toNat (d : Nat) (h : d < 10) : (digitChar d).toNat - 48 = d := by
  interval_cases d <;> decide

lemma natDecimalAux_eq (fuel : Nat) : ∀ n, n ≤ fuel →
    natDecimalAux fuel n = (Nat.digits 10 n).reverse.map digitChar := by
  induction fuel with
  | zero =>
    intro n hn
    interval_cases n
    simp [natDecimalAux]
  | succ fuel ih =>
    intro n hn
    by_cases h0 : n = 0
    · simp [natDecimalAux, h0]
    · rw [natDecimalAux, if_neg h0, ih (n / 10) (by omega)]
      rw [Nat.digits_def' (by norm_num : (1 : Nat) < 10) (Nat.pos_of_ne_zero h0)]
      simp

lemma natDecimal_eq (n : Nat) :
    natDecimal n = if n = 0 then ['0']
      else (Nat.digits 10 n).reverse.map digitChar := by
  unfold natDecimal
  by_cases h0 : n = 0
  · simp [h0]
  · rw [if_neg h0, if_neg h0, natDecimalAux_eq n n (le_refl n)]

lemma natDecimal_digits (n : Nat) : ∀ c ∈ natDecimal n, c.isDigit = true := by
  intro c hc
  rw [natDecimal_eq] at hc
  by_cases h0 : n = 0
  · rw [if_pos h0] at hc
    simp only [List.mem_singleton] at hc
    subst hc
    decide
  · rw [if_neg h0] at hc
    rcases List.mem_map.mp hc with ⟨d, hd, rfl⟩
    exact digitChar_isDigit d
      (Nat.digits_lt_base (by norm_num) (List.mem_reverse.mp hd))

lemma natDecimal_ne_nil (n : Nat) : natDecimal n ≠ [] := by
  rw [natDecimal_eq]
  by_cases h0 : n = 0
  · simp [h0]
  · rw [if_neg h0]
    simp [Nat.digits_ne_nil_iff_ne_zero.mpr h0]

lemma parseDigitsAux_eq (s : GoStr) : ∀ acc, parseDigitsAux s acc =
    if s.all Char.isDigit then
      some (s.foldl (fun a c => a * 10 + (c.toNat - 48)) acc) else none := by
  induction s with
  | nil => intro acc; simp [parseDigitsAux]
  | cons c rest ih =>
    intro acc
    by_cases hc : c.isDigit
    · simp [parseDigitsAux, hc, ih]
    · simp [parseDigitsAux, hc]

lemma foldr_digits (l : List Nat) (h : ∀ d ∈ l, d < 10) :
    l.foldr (fun d a => a * 10 + ((digitChar d).toNat - 48)) 0 =
      Nat.ofDigits 10 l := by
  induction l with
  | nil => simp
  | cons d rest ih =>
    rw [List.foldr_cons, Nat.ofDigits_cons,
      ih (fun x hx => h x (List.mem_cons_of_mem d hx)),
      digitChar_toNat d (h d (List.mem_cons_self d rest))]
    ring

lemma parseDec_natDecimal (n : Nat) : parseDec (natDecimal n) = some n := by
  unfold parseDec
  rw [if_neg (natDecimal_ne_nil n), parseDigitsAux_eq,
    if_pos (by rw [List.all_eq_true]; exact natDecimal_digits n)]
  by_cases h0 : n = 0
  · subst h0
    rfl
  · rw [natDecimal_eq, if_neg h0, List.foldl_map, List.foldl_reverse,
      foldr_digits _ (fun d hd => Nat.digits_lt_base (by norm_num) hd),
      Nat.ofDigits_digits]

lemma goParseInt_intDecimal (i : Int) (h0 : 0 ≤ i) (hlt : i < 2 ^ 63) :
    goParseInt (intDecimal i) = some i := by
  have hi : intDecimal i = natDecimal i.toNat := by
    unfold intDecimal
    rw [if_neg (not_lt.mpr h0)]
  obtain ⟨c, cs, hcons⟩ : ∃ c cs, natDecimal i.toNat = c :: cs := by
    cases hd : natDecimal i.toNat with
    | nil => exact absurd hd (natDecimal_ne_nil i.toNat)
    | cons c cs => exact ⟨c, cs, rfl⟩
  have hcd : c.isDigit = true :=
    natDecimal_digits i.toNat c (hcons ▸ List.mem_cons_self c cs)
  have hc1 : c ≠ '+' := fun e => by rw [e] at hcd; exact absurd hcd (by decide)
  have hc2 : c ≠ '-' := fun e => by rw [e] at hcd; exact absurd hcd (by decide)
  rw [hi, hcons]
  unfold goParseInt
  dsimp only
  rw [if_neg hc1, if_neg hc2, ← hcons, parseDec_natDecimal]
  have hn : i.toNat < 2 ^ 63 := by omega
  rw [Option.some_bind, if_pos hn, Int.toNat_of_nonneg h0]

lemma hexVal_hexDigit (d : Nat) (h : d < 16) : hexVal (hexDigit d) = some d := by
  interval_cases d <;> decide

lemma hexDigit_ne_sep (d : Nat) (h : d < 16) : hexDigit d ≠ '|' := by
  interval_cases d <;> decide

lemma hexToBytes_bytesToHex (bs : List Nat) (h : ∀ b ∈ bs, b < 256) :
    hexToBytes (bytesToHex bs) = some bs := by
  induction bs with
  | nil => rfl
  | cons b rest ih =>
    have hb : b < 256 := h b (List.mem_cons_self b rest)
    have hrec := ih (fun x hx => h x (List.mem_cons_of_mem b hx))
    show hexToBytes
      (hexDigit (b / 16) :: hexDigit (b % 16) :: bytesToHex rest) = _
    rw [hexToBytes, hexVal_hexDigit _ (by omega), hexVal_hexDigit _ (by omega),
      hrec]
    dsimp only
    have hbeq : b / 16 * 16 + b % 16 = b := by omega
    rw [hbeq]

/-! ### Splitting lemmas. -/

lemma goSplit_no_sep (sep : Char) (xs : GoStr) (h : sep ∉ xs) :
    goSplit sep xs = [xs] := by
  induction xs with
  | nil => rfl
  | cons c rest ih =>
    have hc : c ≠ sep := fun e => h (e ▸ List.mem_cons_self c rest)
    rw [goSplit, if_neg hc, ih (fun hm => h (List.mem_cons_of_mem c hm))]

lemma goSplit_append (sep : Char) (xs ys : GoStr) (h : sep ∉ xs) :
    goSplit sep (xs ++ sep :: ys) = xs :: goSplit sep ys := by
  induction xs with
  | nil => simp [goSplit]
  | cons c rest ih =>
    have hc : c ≠ sep := fun e => h (e ▸ List.mem_cons_self c rest)
    rw [List.cons_append, goSplit, if_neg hc,
      ih (fun hm => h (List.mem_cons_of_mem c hm))]

lemma intDecimal_no_sep (i : Int) (h0 : 0 ≤ i) : '|' ∉ intDecimal i := by
  intro hm
  have hi : intDecimal i = natDecimal i.toNat := by
    unfold intDecimal
    rw [if_neg (not_lt.mpr h0)]
  rw [hi] at hm
  have := natDecimal_digits i.toNat '|' hm
  exact absurd this (by decide)

lemma bytesToHex_no_sep (bs : List Nat) (h : ∀ b ∈ bs, b < 256) :
    '|' ∉ bytesToHex bs := by
  intro hm
  unfold bytesToHex at hm
  rcases List.mem_flatMap.mp hm with ⟨b, hb, hcm⟩
  have hb256 := h b hb
  simp only [List.mem_cons, List.mem_singleton, List.not_mem_nil,
    or_false] at hcm
  rcases hcm with he | he
  · exact hexDigit_ne_sep (b / 16) (by omega) he.symm
  · exact hexDigit_ne_sep (b % 16) (by omega) he.symm

/-- C6: serializing a well-formed file record to the one-line cache format
and parsing that line back reproduces the path, modification time, size,
and digest exactly. -/
theorem cache_line_roundtrip (r : FileAttr)
    (habs : isAbsPath r.Path = true)
    (hpipe : '|' ∉ r.Path) (hnl : '\n' ∉ r.Path)
    (hname : (GetBaseName r.Path).isSome = true)
    (hmt0 : 0 ≤ r.ModTime) (hmt : r.ModTime < 2 ^ 63)
    (hsz0 : 0 ≤ r.Size) (hsz : r.Size < 2 ^ 63)
    (hdg : r.SHA256.length = 32) (hdgb : ∀ b ∈ r.SHA256, b < 256) :
    ∃ r', parseCacheLine (saveCacheLine r) = some r' ∧
      r'.Path = r.Path ∧ r'.ModTime = r.ModTime ∧ r'.Size = r.Size ∧
      r'.SHA256 = r.SHA256 := by
  have hform : saveCacheLine r = r.Path ++ '|' :: (intDecimal r.ModTime ++
      '|' :: (intDecimal r.Size ++ '|' :: bytesToHex r.SHA256)) := by
    unfold saveCacheLine
    simp [List.append_assoc]
  have hsplit : goSplit '|' (saveCacheLine r) =
      [r.Path, intDecimal r.ModTime, intDecimal r.Size,
        bytesToHex r.SHA256] := by
    rw [hform, goSplit_append _ _ _ hpipe,
      goSplit_append _ _ _ (intDecimal_no_sep r.ModTime hmt0),
      goSplit_append _ _ _ (intDecimal_no_sep r.Size hsz0),
      goSplit_no_sep _ _ (bytesToHex_no_sep r.SHA256 hdgb)]
  obtain ⟨nm, hnm⟩ := Option.isSome_iff_exists.mp hname
  unfold parseCacheLine
  rw [hsplit]
  dsimp only
  rw [if_neg (not_not_intro habs), hnm]
  dsimp only
  rw [goParseInt_intDecimal r.ModTime hmt0 hmt]
  dsimp only
  rw [if_neg (not_lt.mpr hmt0), goParseInt_intDecimal r.Size hsz0 hsz]
  dsimp only
  rw [if_neg (not_lt.mpr hsz0), hexToBytes_bytesToHex r.SHA256 hdgb]
  dsimp only
  rw [if_neg (not_not_intro hdg)]
  exact ⟨_, rfl, rfl, rfl, rfl, rfl⟩

/-- Witness for C6: the round trip at the concrete record `staleAttr`. -/
theorem cache_line_roundtrip_witness :
    ∃ r', parseCacheLine (saveCacheLine staleAttr) = some r' ∧
      r'.Path = staleAttr.Path ∧ r'.ModTime = staleAttr.ModTime ∧
      r'.Size = staleAttr.Size ∧ r'.SHA256 = staleAttr.SHA256 :=
  cache_line_roundtrip staleAttr (by decide) (by decide) (by decide)
    (by decide) (by decide) (by decide) (by decide) (by decide) (by decide)
    (by decide)

lemma hexToBytes_spec : ∀ (s : GoStr),
    ((s.length % 2 = 0 ∧ ∀ c ∈ s, (hexVal c).isSome = true) →
      ∃ bs, hexToBytes s = some bs ∧ 2 * bs.length = s.length) ∧
    (∀ bs, hexToBytes s = some bs →
      2 * bs.length = s.length ∧ ∀ c ∈ s, (hexVal c).isSome = true)
  | [] => by
    constructor
    · intro _
      exact ⟨[], rfl, rfl⟩
    · intro bs hbs
      have hbs' : bs = [] := by
        simpa [hexToBytes] using hbs.symm
      subst hbs'
      simp
  | [c] => by
    constructor
    · rintro ⟨hpar, _⟩
      simp at hpar
    · intro bs hbs
      simp [hexToBytes] at hbs
  | c1 :: c2 :: rest => by
    obtain ⟨ihf, ihb⟩ := hexToBytes_spec rest
    constructor
    · rintro ⟨hpar, hall⟩
      have h1 : (hexVal c1).isSome = true := hall c1 (by simp)
      have h2 : (hexVal c2).isSome = true := hall c2 (by simp)
      obtain ⟨v1, hv1⟩ := Option.isSome_iff_exists.mp h1
      obtain ⟨v2, hv2⟩ := Option.isSome_iff_exists.mp h2
      have hparr : rest.length % 2 = 0 := by
        simp only [List.length_cons] at hpar
        omega
      obtain ⟨bs, hbs, hlen⟩ :=
        ihf ⟨hparr, fun c hc => hall c (by simp [hc])⟩
      refine ⟨(v1 * 16 + v2) :: bs, ?_, ?_⟩
      · rw [hexToBytes, hv1, hv2, hbs]
      · simp only [List.length_cons]
        omega
    · intro bs hbs
      rw [hexToBytes] at hbs
      cases hv1 : hexVal c1 with
      | none =>
        rw [hv1] at hbs
        cases hexVal c2 <;> cases hexToBytes rest <;> simp_all
      | some v1 =>
        rw [hv1] at hbs
        cases hv2 : hexVal c2 with
        | none =>
          rw [hv2] at hbs
          cases hexToBytes rest <;> simp_all
        | some v2 =>
          rw [hv2] at hbs
          cases hr : hexToBytes rest with
          | none => rw [hr] at hbs; simp_all
          | some bs0 =>
            rw [hr] at hbs
            have hbs' : (v1 * 16 + v2) :: bs0 = bs := by
              simpa using hbs
            obtain ⟨hlen0, hall0⟩ := ihb bs0 hr
            subst hbs'
            refine ⟨by simp only [List.length_cons]; omega, ?_⟩
            intro c hc
            rcases List.mem_cons.mp hc with rfl | hc2
            · simp [hv1]
            · rcases List.mem_cons.mp hc2 with rfl | hc3
              · simp [hv2]
              · exact hall0 c hc3

lemma validHexDigest_iff (s : GoStr) :
    validHexDigest s = true ↔
      ∃ bs, hexToBytes s = some bs ∧ bs.length = 32 := by
  unfold validHexDigest
  constructor
  · intro hv
    simp only [Bool.and_eq_true, decide_eq_true_eq, List.all_eq_true] at hv
    obtain ⟨h64, hall⟩ := hv
    obtain ⟨bs, hbs, hlen⟩ := (hexToBytes_spec s).1 ⟨by omega, hall⟩
    exact ⟨bs, hbs, by omega⟩
  · rintro ⟨bs, hbs, hlen⟩
    obtain ⟨hlen2, hall⟩ := (hexToBytes_spec s).2 bs hbs
    simp only [Bool.and_eq_true, decide_eq_true_eq, List.all_eq_true]
    exact ⟨by omega, hall⟩

lemma parseDec_eq (t : GoStr) :
    parseDec t = if allDigits t = true then some (digitsVal t) else none := by
  unfold parseDec allDigits digitsVal
  by_cases hne : t = []
  · subst hne
    simp
  · rw [if_neg hne, parseDigitsAux_eq]
    by_cases hall : t.all Char.isDigit
    · rw [if_pos hall, if_pos (by simp [hne, hall])]
    · rw [if_neg hall, if_neg (by simp [hall])]

lemma numericNonneg_iff (s : GoStr) :
    numericNonneg s = true ↔ ∃ m, goParseInt s = some m ∧ 0 ≤ m := by
  cases s with
  | nil =>
    unfold numericNonneg goParseInt
    simp
  | cons c rest =>
    unfold numericNonneg goParseInt
    dsimp only
    by_cases hplus : c = '+'
    · rw [if_pos hplus, if_pos hplus, parseDec_eq]
      by_cases hall : allDigits rest = true
      · rw [if_pos hall, Option.some_bind]
        by_cases hlt : digitsVal rest < 2 ^ 63
        · rw [if_pos hlt]
          simp only [Bool.and_eq_true, decide_eq_true_eq]
          constructor
          · intro _
            exact ⟨(digitsVal rest : Int), rfl, Int.natCast_nonneg _⟩
          · intro _
            exact ⟨hall, hlt⟩
        · rw [if_neg hlt]
          simp only [Bool.and_eq_true, decide_eq_true_eq]
          constructor
          · rintro ⟨_, h⟩
            exact absurd h hlt
          · rintro ⟨m, hm, _⟩
            exact absurd hm (by simp)
      · rw [if_neg hall, Option.none_bind]
        simp only [Bool.and_eq_true]
        constructor
        · rintro ⟨h, _⟩
          exact absurd h hall
        · rintro ⟨m, hm, _⟩
          exact absurd hm (by simp)
    · rw [if_neg hplus, if_neg hplus]
      by_cases hminus : c = '-'
      · rw [if_pos hminus, if_pos hminus, parseDec_eq]
        by_cases hall : allDigits rest = true
        · rw [if_pos hall, Option.some_bind]
          by_cases hle : digitsVal rest ≤ 2 ^ 63
          · rw [if_pos hle]
            simp only [Bool.and_eq_true, decide_eq_true_eq]
            constructor
            · rintro ⟨_, h0⟩
              exact ⟨-(digitsVal rest : Int), rfl, by omega⟩
            · rintro ⟨m, hm, h0⟩
              have hm' : m = -(digitsVal rest : Int) :=
                (Option.some.inj hm).symm
              refine ⟨hall, by omega⟩
          · rw [if_neg hle]
            simp only [Bool.and_eq_true, decide_eq_true_eq]
            constructor
            · rintro ⟨_, h0⟩
              omega
            · rintro ⟨m, hm, _⟩
              exact absurd hm (by simp)
        · rw [if_neg hall, Option.none_bind]
          simp only [Bool.and_eq_true]
          constructor
          · rintro ⟨h, _⟩
            exact absurd h hall
          · rintro ⟨m, hm, _⟩
            exact absurd hm (by simp)
      · rw [if_neg hminus, if_neg hminus, parseDec_eq]
        by_cases hall : allDigits (c :: rest) = true
        · rw [if_pos hall, Option.some_bind]
          by_cases hlt : digitsVal (c :: rest) < 2 ^ 63
          · rw [if_pos hlt]
            simp only [Bool.and_eq_true, decide_eq_true_eq]
            constructor
            · intro _
              exact ⟨(digitsVal (c :: rest) : Int), rfl, Int.natCast_nonneg _⟩
            · intro _
              exact ⟨hall, hlt⟩
          · rw [if_neg hlt]
            simp only [Bool.and_eq_true, decide_eq_true_eq]
            constructor
            · rintro ⟨_, h⟩
              exact absurd h hlt
            · rintro ⟨m, hm, _⟩
              exact absurd hm (by simp)
        · rw [if_neg hall, Option.none_bind]
          simp only [Bool.and_eq_true]
          constructor
          · rintro ⟨h, _⟩
            exact absurd h hall
          · rintro ⟨m, hm, _⟩
            exact absurd hm (by simp)

lemma parseCacheLine_none_iff (line : GoStr) :
    (parseCacheLine line).isNone = true ↔ badLine line = true := by
  unfold parseCacheLine badLine
  cases hsp : goSplit '|' line with
  | nil => simp
  | cons f0 t0 =>
    cases t0 with
    | nil => simp
    | cons f1 t1 =>
      cases t1 with
      | nil => simp
      | cons f2 t2 =>
        cases t2 with
        | nil => simp
        | cons f3 t3 =>
          cases t3 with
          | cons f4 t4 => simp
          | nil =>
            dsimp only
            by_cases habs : isAbsPath f0 = true
            · rw [if_neg (not_not_intro habs)]
              cases hbn : GetBaseName f0 with
              | none => simp [habs, hbn]
              | some nm =>
                by_cases h1 : numericNonneg f1 = true
                · obtain ⟨m1, hp1, h01⟩ := (numericNonneg_iff f1).mp h1
                  rw [hp1]
                  dsimp only
                  rw [if_neg (not_lt.mpr h01)]
                  by_cases h2 : numericNonneg f2 = true
                  · obtain ⟨m2, hp2, h02⟩ := (numericNonneg_iff f2).mp h2
                    rw [hp2]
                    dsimp only
                    rw [if_neg (not_lt.mpr h02)]
                    by_cases h3 : validHexDigest f3 = true
                    · obtain ⟨bs, hbs, hl⟩ := (validHexDigest_iff f3).mp h3
                      rw [hbs]
                      dsimp only
                      rw [if_neg (not_not_intro hl)]
                      simp [habs, hbn, h1, h2, h3]
                    · cases hhb : hexToBytes f3 with
                      | none => simp [habs, hbn, h1, h2, h3]
                      | some bs =>
                        have hlne : bs.length ≠ 32 := by
                          intro he
                          exact h3 ((validHexDigest_iff f3).mpr ⟨bs, hhb, he⟩)
                        dsimp only
                        rw [if_pos hlne]
                        simp [habs, hbn, h1, h2, h3]
                  · cases hp2 : goParseInt f2 with
                    | none => simp [habs, hbn, h1, h2]
                    | some m2 =>
                      have hneg : m2 < 0 := by
                        by_contra hge
                        exact h2 ((numericNonneg_iff f2).mpr
                          ⟨m2, hp2, not_lt.mp hge⟩)
                      dsimp only
                      rw [if_pos hneg]
                      simp [habs, hbn, h1, h2]
                · cases hp1 : goParseInt f1 with
                  | none => simp [habs, hbn, h1]
                  | some m1 =>
                    have hneg : m1 < 0 := by
                      by_contra hge
                      exact h1 ((numericNonneg_iff f1).mpr
                        ⟨m1, hp1, not_lt.mp hge⟩)
                    dsimp only
                    rw [if_pos hneg]
                    simp [habs, hbn, h1]
            · rw [if_pos habs]
              simp [Bool.eq_false_iff.mpr habs]

lemma scannerReadCache_stops (pre : List GoStr) : ∀ (post : List GoStr)
    (line : GoStr) (t : List (GoStr × FileAttr)),
    (∀ l ∈ pre, (parseCacheLine l).isSome = true) →
    parseCacheLine line = none →
    scannerReadCache t (pre ++ line :: post) = (loadRecords t pre, true) := by
  induction pre with
  | nil =>
    intro post line t _ hbad
    rw [List.nil_append, scannerReadCache, hbad]
    rfl
  | cons p ps ih =>
    intro post line t hpre hbad
    obtain ⟨r, hr⟩ := Option.isSome_iff_exists.mp
      (hpre p (List.mem_cons_self p ps))
    rw [List.cons_append, scannerReadCache, hr]
    dsimp only
    rw [ih post line _ (fun l hl => hpre l (List.mem_cons_of_mem p hl)) hbad]
    unfold loadRecords
    rw [List.foldl_cons, hr]

/-- C7 (amended): a cache line fails to parse exactly when it has other
than 4 `|`-separated fields, a non-absolute path, a path with no derivable
base name, a modTime or size field that does not parse as a non-negative
64-bit integer, or a digest that is not valid fixed-length hex; when the
scanner's cache load hits such a line it stops parsing there and reports
an error (which the caller ignores, so the scan proceeds), but the records
from the preceding well-formed lines remain in the in-memory table — the
cache does not behave as if empty. -/
theorem cacheLoad_malformed (pre post : List GoStr) (line : GoStr)
    (t : List (GoStr × FileAttr))
    (hpre : ∀ l ∈ pre, (parseCacheLine l).isSome = true)
    (hbad : badLine line = true) :
    (∀ l : GoStr, (parseCacheLine l).isNone = true ↔ badLine l = true) ∧
    scannerReadCache t (pre ++ line :: post) = (loadRecords t pre, true) :=
  ⟨parseCacheLine_none_iff,
    scannerReadCache_stops pre post line t hpre
      (Option.isNone_iff_eq_none.mp ((parseCacheLine_none_iff line).mpr hbad))⟩

/-- C7 counterexample: loading a cache whose first line is well formed and
whose second is malformed stops with an error but keeps the first line's
record — the in-memory cache is not empty, contrary to the claim. -/
theorem cacheLoad_not_empty_counterexample :
    badLineEx = "a|b|c".toList ∧
    (parseCacheLine badLineEx).isNone = true ∧
    scannerReadCache [] [goodLine, badLineEx] =
      ([("/a/x".toList, staleAttr)], true) := by
  refine ⟨?_, ?_, ?_⟩ <;> decide

/-- Witness for the amended C7 at concrete lines. -/
theorem cacheLoad_malformed_witness :
    scannerReadCache [] ([goodLine] ++ badLineEx :: []) =
      (loadRecords [] [goodLine], true) :=
  (cacheLoad_malformed [goodLine] [] badLineEx []
    (by decide) (by decide)).2

/-- Witness for C8: the user spec `old` yields the user rule first and the
missing categories from the default order. -/
theorem NewPolicy_characterization_witness :
    ([⟨POLICY_CATEGORY_MOD_TIME, -1⟩, ⟨POLICY_CATEGORY_NAME, 1⟩,
      ⟨POLICY_CATEGORY_PATH, 1⟩] : List policyItem) =
      (policyTokens ("old".toList)).filterMap policyItemMapping ++
        defaultPolicyItems.filter
          (fun d => !policyItemExist
            ((policyTokens ("old".toList)).filterMap policyItemMapping)
            d.category) :=
  ((NewPolicy_characterization ("old".toList)).2
    [⟨POLICY_CATEGORY_MOD_TIME, -1⟩, ⟨POLICY_CATEGORY_NAME, 1⟩,
     ⟨POLICY_CATEGORY_PATH, 1⟩] (by decide)).1

end Dedup
